import Mathlib

/-!
Shallow embedding of the NeuroKit routines `ecg_rsa` (ecg/ecg_rsa.py),
`hdi` (stats/hdi.py) and `rescale` (stats/rescale.py), together with
theorems settling the specification claims about them.

Numeric values are modelled as exact rationals (ℚ); sample indices as
naturals cast into ℚ where the code mixes them with signal values.
Missing values (NaN produced and skipped by numpy/pandas) are modelled
with `Option ℚ`, and code paths that raise an exception are modelled
with `Except`/`Option` results.
-/

namespace NK

/-- Model of `np.min` on a (nonempty) list; the empty case returns the
default element and corresponds to the `ValueError` numpy raises. -/
def npMin {α : Type} [LinearOrder α] [Inhabited α] : List α → α
  | [] => default
  | [x] => x
  | x :: y :: xs => min x (npMin (y :: xs))

/-- Model of `np.max` on a (nonempty) list. -/
def npMax {α : Type} [LinearOrder α] [Inhabited α] : List α → α
  | [] => default
  | [x] => x
  | x :: y :: xs => max x (npMax (y :: xs))

/-- Model of `np.diff`: consecutive differences `l[i+1] - l[i]`. -/
def npdiff (l : List ℚ) : List ℚ := List.zipWith (fun a b => a - b) l.tail l

/-- Embeds `rpeaks[np.logical_and(rpeaks >= cycle_init, rpeaks < cycle_end)]`
(ecg_rsa.py line 89): the R-peak indices lying in `[init, fin)`. -/
def cycleRpeaks (rpeaks : List ℚ) (init fin : ℚ) : List ℚ :=
  rpeaks.filter (fun p => decide (init ≤ p) && decide (p < fin))

/-- Embeds the `cycles_rri` loop of `ecg_rsa` (lines 85-90): for each pair
of consecutive inspiration onsets, the R-peaks within that cycle. -/
def cyclesRRI (rpeaks onsets : List ℚ) : List (List ℚ) :=
  (List.range (onsets.length - 1)).map (fun idx =>
    cycleRpeaks rpeaks (onsets.getD idx 0) (onsets.getD (idx + 1) 0))

/-- Embeds the per-cycle body of the `for cycle in cycles_rri` loop
(lines 94-100): `RRis = np.diff(cycle)/sampling_rate`, then
`max(RRis) - min(RRis)` if `len(RRis) > 1` else `np.nan`. -/
def p2tValue (sr : ℚ) (cycle : List ℚ) : Option ℚ :=
  let RRis := (npdiff cycle).map (fun d => d / sr)
  if 1 < RRis.length then some (npMax RRis - npMin RRis) else none

/-- Embeds `rsa["RSA_P2T_Values"]` (lines 93-100). -/
def p2tValues (rpeaks onsets : List ℚ) (sr : ℚ) : List (Option ℚ) :=
  (cyclesRRI rpeaks onsets).map (p2tValue sr)

/-- Spec-side formulation of the inter-beat intervals of one cycle:
differences of consecutive selected R-peak indices divided by the
sampling rate (stated directly on adjacent pairs). -/
def specIntervals (cycle : List ℚ) (sr : ℚ) : List ℚ :=
  (cycle.zip cycle.tail).map (fun p => (p.2 - p.1) / sr)

theorem specIntervals_eq_npdiff (sr : ℚ) :
    ∀ l : List ℚ, specIntervals l sr = (npdiff l).map (fun d => d / sr)
  | [] => rfl
  | [_] => rfl
  | a :: b :: t => by
    have ih := specIntervals_eq_npdiff sr (b :: t)
    simp only [specIntervals, npdiff, List.zip, List.tail_cons,
      List.zipWith_cons_cons, List.map_cons] at ih ⊢
    rw [ih]

theorem length_p2tValues (rpeaks onsets : List ℚ) (sr : ℚ) :
    (p2tValues rpeaks onsets sr).length = onsets.length - 1 := by
  simp [p2tValues, cyclesRRI]

/-- Sum of the non-missing entries of an Option-valued series; models the
NaN-skipping summation used by `pandas.Series.mean`/`.std`. -/
def pdSum : List (Option ℚ) → ℚ
  | [] => 0
  | none :: rest => pdSum rest
  | some x :: rest => x + pdSum rest

/-- Count of the non-missing entries of an Option-valued series. -/
def pdCount : List (Option ℚ) → ℕ
  | [] => 0
  | none :: rest => pdCount rest
  | some _ :: rest => 1 + pdCount rest

/-- Embeds `pd.Series(values).mean()` (ecg_rsa.py line 101): NaN entries
are skipped; the result is NaN (`none`) when no entry is valid. -/
def pdMean (l : List (Option ℚ)) : Option ℚ :=
  if pdCount l = 0 then none else some (pdSum l / pdCount l)

/-- Embeds the square of `pd.Series(values).std()` (line 103): the
NaN-skipping sample variance with `ddof=1`, NaN when fewer than 2 valid
entries. -/
def pdVar (l : List (Option ℚ)) : Option ℚ :=
  if pdCount l < 2 then none
  else
    some (pdSum (l.map (Option.map (fun x => (x - pdSum l / pdCount l) ^ 2))) /
      ((pdCount l : ℚ) - 1))

/-- Embeds `len(values.index[values.isnull()])` (lines 104-105): the
number of missing per-cycle RSA values. -/
def noRSA (l : List (Option ℚ)) : ℕ := l.countP (fun o => o.isNone)

/-- Spec-side: the defined (non-missing) entries of the value series. -/
def definedValues (l : List (Option ℚ)) : List ℚ := l.filterMap id

/-- Spec-side: arithmetic mean of a plain list of values. -/
def meanQ (d : List ℚ) : Option ℚ :=
  if d.length = 0 then none else some (d.sum / d.length)

/-- Spec-side: sample variance with `ddof = 1` of a plain list. -/
def sampleVarQ (d : List ℚ) : Option ℚ :=
  if d.length < 2 then none
  else some ((d.map (fun x => (x - d.sum / d.length) ^ 2)).sum / ((d.length : ℚ) - 1))

/-- Spec-side: the number of breath cycles whose selected R-peak list has
fewer than `k` R-peaks. -/
def cyclesWithFewerRpeaksThan (rpeaks onsets : List ℚ) (k : ℕ) : ℕ :=
  (cyclesRRI rpeaks onsets).countP (fun c => decide (c.length < k))

theorem pdSum_eq (l : List (Option ℚ)) : pdSum l = (definedValues l).sum := by
  induction l with
  | nil => rfl
  | cons o rest ih => cases o <;> simp [pdSum, definedValues, List.filterMap_cons] at ih ⊢ <;>
      simp [ih]

theorem pdCount_eq (l : List (Option ℚ)) : pdCount l = (definedValues l).length := by
  induction l with
  | nil => rfl
  | cons o rest ih => cases o <;> simp [pdCount, definedValues, List.filterMap_cons] at ih ⊢ <;>
      omega

theorem definedValues_map (f : ℚ → ℚ) (l : List (Option ℚ)) :
    definedValues (l.map (Option.map f)) = (definedValues l).map f := by
  induction l with
  | nil => rfl
  | cons o rest ih => cases o <;>
      simp [definedValues, List.filterMap_cons] at ih ⊢ <;> simp [ih]

theorem pdMean_eq (l : List (Option ℚ)) : pdMean l = meanQ (definedValues l) := by
  simp [pdMean, meanQ, pdSum_eq, pdCount_eq]

theorem pdVar_eq (l : List (Option ℚ)) : pdVar l = sampleVarQ (definedValues l) := by
  simp only [pdVar, sampleVarQ, pdSum_eq, pdCount_eq, definedValues_map]

/-- Embeds the rate arguments of the call
`signal_resample(heart_period, sampling_rate=100, desired_sampling_rate=2)`
on ecg_rsa.py line 112: the input rate is the literal 100 and the output
rate the literal 2; the caller-supplied `sampling_rate` is in scope but
does not flow into the call. -/
def porgesResampleRates (_sampling_rate : ℚ) : ℚ × ℚ := (100, 2)

/-- Tests whether the second character list occurs starting at the head of
the first; helper for Python's `in` substring test. -/
def headMatch : List Char → List Char → Bool
  | [], _ => true
  | _ :: _, [] => false
  | a :: as, b :: bs => a == b && headMatch as bs

/-- Tests whether `pat` occurs contiguously anywhere in the list. -/
def someMatch (pat : List Char) : List Char → Bool
  | [] => pat.isEmpty
  | b :: bs => headMatch pat (b :: bs) || someMatch pat bs

/-- Model of Python's `pat in s` substring containment on column names. -/
def strHas (s pat : String) : Bool := someMatch pat.data s.data

/-- Error raised by the column validation of `ecg_rsa` (the spec calls it
`MissingColumnError`; the code raises `ValueError` with a message). -/
inductive RsaErr where
  | missingColumn (msg : String)
deriving DecidableEq

/-- Embeds the DataFrame sanity checks of `ecg_rsa` (lines 58-66): exactly
2 columns whose name contains `RSP_Phase`, at least 1 whose name contains
`ECG_Rate`; otherwise an error is raised at once and nothing else runs. -/
def ecgRsaCheck (cols : List String) : Except RsaErr Unit :=
  if (cols.filter (fun c => strHas c "RSP_Phase")).length ≠ 2 then
    Except.error (RsaErr.missingColumn
      "NeuroKit error: ecg_rsa(): we couldn't extract respiratory phases and cycles.")
  else if (cols.filter (fun c => strHas c "ECG_Rate")).length = 0 then
    Except.error (RsaErr.missingColumn
      "NeuroKit error: ecg_rsa(): we couldn't extract heart rate signal.")
  else Except.ok ()

/-- Embeds the inspiration-onset extraction of `_ecg_rsa_cycles`
(line 147): the sample indices at which `RSP_Phase == 1` and
`RSP_PhaseCompletion == 0`, in increasing order. -/
def inspirationOnsets (phase completion : List ℚ) : List ℕ :=
  (List.range phase.length).filter
    (fun i => decide (phase.getD i 0 = 1) && decide (completion.getD i 1 = 0))

/-- Embeds the expiration-onset extraction of `_ecg_rsa_cycles`
(line 149): the sample indices at which `RSP_Phase == 0` and
`RSP_PhaseCompletion == 0`. -/
def expirationOnsets (phase completion : List ℚ) : List ℕ :=
  (List.range phase.length).filter
    (fun i => decide (phase.getD i 1 = 0) && decide (completion.getD i 1 = 0))

/-- Embeds the cycle alignment of `ecg_rsa` (lines 71-78): keep the
expiration onsets strictly after the first inspiration onset, drop the
last one when the counts coincide, and flag the non-fatal warning when
the final count is not exactly one less than the inspiration count.
`none` models the `IndexError` raised by `rsp_onsets[0]` when there is
no inspiration onset at all. -/
def alignCycles (insp exps : List ℕ) : Option (List ℕ × Bool) :=
  if insp.isEmpty then none
  else
    let kept := exps.filter (fun e => decide (insp.headD 0 < e))
    let kept2 := if kept.length = insp.length then kept.dropLast else kept
    some (kept2, decide ((kept2.length : ℤ) - (insp.length : ℤ) ≠ -1))

/-- Embeds the epoch index `time // 30` with `time = k / 2` of the sample
at position `k` of the 2 Hz filtered residual (ecg_rsa.py lines 122-125). -/
def epochIdx (k : ℕ) : ℤ := ⌊((k : ℚ) / 2) / 30⌋

/-- Embeds `time.loc[i]` (line 129): the samples of the filtered residual
whose epoch index is `i`. -/
def epochSamples (sig : List ℚ) (i : ℕ) : List ℚ :=
  ((List.range sig.length).filter (fun k => decide (epochIdx k = i))).map
    (fun k => sig.getD k 0)

/-- Embeds `np.max(time.index.values)` (line 128), the largest epoch index;
`np.max` of the empty index raises, matching `npMax`'s junk value. -/
def maxEpochIdx (sig : List ℚ) : ℤ :=
  npMax ((List.range sig.length).map epochIdx)

theorem epochIdx_eq (k : ℕ) : epochIdx k = ((k / 60 : ℕ) : ℤ) := by
  unfold epochIdx
  have h1 : ((k : ℚ) / 2) / 30 = (k : ℚ) / 60 := by ring
  rw [h1, ← Int.natCast_floor_eq_floor (by positivity)]
  norm_num [Nat.floor_div_ofNat, Nat.floor_natCast]

theorem le_npMax {α : Type} [LinearOrder α] [Inhabited α] :
    ∀ l : List α, ∀ a ∈ l, a ≤ npMax l
  | [], a, ha => absurd ha (List.not_mem_nil a)
  | [x], a, ha => by
    rcases List.mem_singleton.mp ha with rfl
    exact le_of_eq rfl
  | x :: y :: xs, a, ha => by
    simp only [npMax]
    rcases List.mem_cons.mp ha with rfl | hm
    · exact le_max_left _ _
    · exact le_trans (le_npMax (y :: xs) a hm) (le_max_right _ _)

theorem npMax_mem {α : Type} [LinearOrder α] [Inhabited α] :
    ∀ l : List α, l ≠ [] → npMax l ∈ l
  | [], h => absurd rfl h
  | [x], _ => List.mem_singleton.mpr rfl
  | x :: y :: xs, _ => by
    simp only [npMax]
    rcases max_cases x (npMax (y :: xs)) with ⟨he, _⟩ | ⟨he, _⟩ <;> rw [he]
    · exact List.mem_cons_self _ _
    · exact List.mem_cons_of_mem _ (npMax_mem (y :: xs) (by simp))

theorem npMin_le {α : Type} [LinearOrder α] [Inhabited α] :
    ∀ l : List α, ∀ a ∈ l, npMin l ≤ a
  | [], a, ha => absurd ha (List.not_mem_nil a)
  | [x], a, ha => by
    rcases List.mem_singleton.mp ha with rfl
    exact le_of_eq rfl
  | x :: y :: xs, a, ha => by
    simp only [npMin]
    rcases List.mem_cons.mp ha with rfl | hm
    · exact min_le_left _ _
    · exact le_trans (min_le_right _ _) (npMin_le (y :: xs) a hm)

theorem npMin_mem {α : Type} [LinearOrder α] [Inhabited α] :
    ∀ l : List α, l ≠ [] → npMin l ∈ l
  | [], h => absurd rfl h
  | [x], _ => List.mem_singleton.mpr rfl
  | x :: y :: xs, _ => by
    simp only [npMin]
    rcases min_cases x (npMin (y :: xs)) with ⟨he, _⟩ | ⟨he, _⟩ <;> rw [he]
    · exact List.mem_cons_self _ _
    · exact List.mem_cons_of_mem _ (npMin_mem (y :: xs) (by simp))

theorem p2tValue_isNone_iff (sr : ℚ) (c : List ℚ) :
    ((p2tValue sr c).isNone = true) ↔ c.length < 3 := by
  have hl : ((npdiff c).map (fun d => d / sr)).length = c.length - 1 := by
    simp [npdiff]
  simp only [p2tValue]
  split_ifs with h <;> rw [hl] at h <;> simp <;> omega

theorem noRSA_eq_fewer_than_three (rpeaks onsets : List ℚ) (sr : ℚ) :
    noRSA (p2tValues rpeaks onsets sr) = cyclesWithFewerRpeaksThan rpeaks onsets 3 := by
  simp only [noRSA, p2tValues, List.countP_map, cyclesWithFewerRpeaksThan]
  exact List.countP_congr (fun c _ => by
    simpa [Function.comp, Option.isNone_iff_eq_none] using p2tValue_isNone_iff sr c)

/-- Embeds `_rescale` (stats/rescale.py lines 48-50):
`(to[1] - to[0]) / (np.nanmax(data) - np.nanmin(data)) * (data - np.nanmin(data)) + to[0]`
mapped over the data; on NaN-free data `np.nanmax`/`np.nanmin` are the
plain max/min. The `rescale` wrapper (lines 35-38) only converts the
container type and is the identity on the numbers. -/
def rescaleList (data : List ℚ) (t0 t1 : ℚ) : List ℚ :=
  data.map (fun x => (t1 - t0) / (npMax data - npMin data) * (x - npMin data) + t0)

theorem npMin_map_mono (f : ℚ → ℚ) (hf : Monotone f) :
    ∀ l : List ℚ, l ≠ [] → npMin (l.map f) = f (npMin l)
  | [], h => absurd rfl h
  | [x], _ => by simp [npMin]
  | x :: y :: xs, _ => by
    have ih := npMin_map_mono f hf (y :: xs) (by simp)
    simp only [List.map_cons] at ih ⊢
    simp only [npMin]
    rw [ih]
    exact (hf.map_min).symm

theorem npMax_map_mono (f : ℚ → ℚ) (hf : Monotone f) :
    ∀ l : List ℚ, l ≠ [] → npMax (l.map f) = f (npMax l)
  | [], h => absurd rfl h
  | [x], _ => by simp [npMax]
  | x :: y :: xs, _ => by
    have ih := npMax_map_mono f hf (y :: xs) (by simp)
    simp only [List.map_cons] at ih ⊢
    simp only [npMax]
    rw [ih]
    exact (hf.map_max).symm

/-- Insertion step of the insertion-sort model of `np.sort`. -/
def insertSorted (a : ℚ) : List ℚ → List ℚ
  | [] => [a]
  | b :: bs => if a ≤ b then a :: b :: bs else b :: insertSorted a bs

/-- Model of `np.sort` (hdi.py line 35): the sorted permutation of the
input is unique, so the choice of sorting algorithm is immaterial. -/
def npsort (l : List ℚ) : List ℚ := l.foldr insertSorted []

/-- Model of Python's `list.index` (line 46): position of the first
occurrence of `a`. -/
def pyIdx (a : ℚ) : List ℚ → ℕ
  | [] => 0
  | b :: bs => if b = a then 0 else pyIdx a bs + 1

/-- Failure modes of `hdi`: the explicit `ValueError` raised when the
window size is below 2 (line 38), and the numpy reduction error raised
by `np.min` of the empty candidate-width list (line 46). -/
inductive HdiErr where
  | ciSmall
  | emptyMin
deriving DecidableEq

/-- Embeds `hdi` (stats/hdi.py lines 35-52, plotting omitted): sort,
take window size `⌈ci·N⌉`, scan all windows `[i, i+w]`, return the
endpoints of the first window of minimal width. -/
def hdi (x : List ℚ) (ci : ℚ) : Except HdiErr (ℚ × ℚ) :=
  let xs := npsort x
  let ws : ℤ := ⌈ci * (xs.length : ℚ)⌉
  if ws < 2 then Except.error HdiErr.ciSmall
  else if (xs.length : ℤ) ≤ ws then Except.error HdiErr.emptyMin
  else
    let w := ws.toNat
    let widths := (List.range (xs.length - w)).map
      (fun i => xs.getD (i + w) 0 - xs.getD i 0)
    let j := pyIdx (npMin widths) widths
    Except.ok (xs.getD j 0, xs.getD (j + w) 0)

/-- Spec-side: the number of sorted sample points lying inside the closed
window `[lo, hi]`. -/
def pointsCovered (xs : List ℚ) (lo hi : ℚ) : ℕ :=
  xs.countP (fun v => decide (lo ≤ v) && decide (v ≤ hi))

theorem length_insertSorted (a : ℚ) :
    ∀ l : List ℚ, (insertSorted a l).length = l.length + 1
  | [] => rfl
  | b :: bs => by
    simp only [insertSorted]
    split_ifs
    · rfl
    · simp [length_insertSorted a bs]

theorem length_npsort (l : List ℚ) : (npsort l).length = l.length := by
  induction l with
  | nil => rfl
  | cons a t ih => simp [npsort, length_insertSorted] at ih ⊢; omega

theorem pyIdx_lt_length (a : ℚ) : ∀ l : List ℚ, a ∈ l → pyIdx a l < l.length
  | [], ha => absurd ha (List.not_mem_nil a)
  | b :: bs, ha => by
    simp only [pyIdx]
    split_ifs with hb
    · simp
    · have : a ∈ bs := by
        rcases List.mem_cons.mp ha with rfl | h
        · exact absurd rfl hb
        · exact h
      simpa using pyIdx_lt_length a bs this

theorem getD_pyIdx (a d : ℚ) : ∀ l : List ℚ, a ∈ l → l.getD (pyIdx a l) d = a
  | [], ha => absurd ha (List.not_mem_nil a)
  | b :: bs, ha => by
    simp only [pyIdx]
    split_ifs with hb
    · simpa using hb
    · have : a ∈ bs := by
        rcases List.mem_cons.mp ha with rfl | h
        · exact absurd rfl hb
        · exact h
      simpa using getD_pyIdx a d bs this

theorem getD_ne_of_lt_pyIdx (a d : ℚ) :
    ∀ l : List ℚ, ∀ i, i < pyIdx a l → l.getD i d ≠ a
  | [], i, hi => by simp [pyIdx] at hi
  | b :: bs, i, hi => by
    simp only [pyIdx] at hi
    split_ifs at hi with hb
    · omega
    · cases i with
      | zero => simpa using hb
      | succ i => simpa using getD_ne_of_lt_pyIdx a d bs i (by omega)

end NK

/-- C3 counterexample: with R-peaks `[10, 20]` and a single breath cycle
`[0, 300)`, the cycle contains exactly 2 R-peaks (so it is *not* a cycle
with fewer than 2 R-peaks), yet its RSA value is missing and
`RSA_P2T_NoRSA = 1`; the claimed count of cycles with fewer than 2
R-peaks is 0 ≠ 1. -/
theorem C3_noRSA_counterexample :
    NK.noRSA (NK.p2tValues [10, 20] [0, 300] 1000) = 1 ∧
    NK.cyclesWithFewerRpeaksThan [10, 20] [0, 300] 2 = 0 := by
  constructor <;>
    norm_num [NK.noRSA, NK.p2tValues, NK.cyclesRRI, NK.cycleRpeaks, NK.p2tValue,
      NK.npdiff, NK.cyclesWithFewerRpeaksThan, List.filter, List.countP, List.countP.go,
      List.range_succ]

/-- C2 code bug: the Porges-Bohrer stage resamples the heart-rate signal
assuming a fixed input rate of 100 Hz for every caller-supplied sampling
rate, instead of passing the native rate; at the default
`sampling_rate = 1000` the rate handed to the resampler is 100 ≠ 1000. -/
theorem C2_resample_rate_bug :
    (∀ sr : ℚ, NK.porgesResampleRates sr = (100, 2)) ∧
    (NK.porgesResampleRates 1000).1 ≠ 1000 := by
  refine ⟨fun _ => rfl, ?_⟩
  norm_num [NK.porgesResampleRates]

/-- C4: on DataFrame input, `ecg_rsa` returns normally from its column
validation exactly when the signals table has exactly 2 respiration-phase
columns and at least 1 heart-rate column; otherwise it stops immediately
with a missing-column error and produces no result. -/
theorem C4_column_check (cols : List String) :
    (NK.ecgRsaCheck cols = Except.ok () ↔
      ((cols.filter (fun c => NK.strHas c "RSP_Phase")).length = 2 ∧
        1 ≤ (cols.filter (fun c => NK.strHas c "ECG_Rate")).length))
    ∧ (¬ ((cols.filter (fun c => NK.strHas c "RSP_Phase")).length = 2 ∧
          1 ≤ (cols.filter (fun c => NK.strHas c "ECG_Rate")).length) →
        ∃ msg, NK.ecgRsaCheck cols = Except.error (NK.RsaErr.missingColumn msg)) := by
  by_cases h1 : (cols.filter (fun c => NK.strHas c "RSP_Phase")).length = 2
  · by_cases h2 : (cols.filter (fun c => NK.strHas c "ECG_Rate")).length = 0
    · refine ⟨by simp [NK.ecgRsaCheck, h1, h2], fun _ => ?_⟩
      exact ⟨"NeuroKit error: ecg_rsa(): we couldn't extract heart rate signal.",
        by simp [NK.ecgRsaCheck, h1, h2]⟩
    · refine ⟨by simp [NK.ecgRsaCheck, h1, h2]; omega, fun hn => absurd ⟨h1, by omega⟩ hn⟩
  · refine ⟨by simp [NK.ecgRsaCheck, h1], fun _ => ?_⟩
    exact ⟨"NeuroKit error: ecg_rsa(): we couldn't extract respiratory phases and cycles.",
      by simp [NK.ecgRsaCheck, h1]⟩

/-- Witness for C4: a table with columns `RSP_Phase`, `RSP_PhaseCompletion`
and `ECG_Rate` has exactly 2 phase columns and 1 rate column, and the
validation passes. -/
theorem C4_column_check_witness :
    NK.ecgRsaCheck ["RSP_Phase", "RSP_PhaseCompletion", "ECG_Rate"] = Except.ok () :=
  (C4_column_check _).1.mpr (by decide)

/-- C3 amended: `RSA_P2T_Mean`, `RSA_P2T_Mean_log` and the ddof-1 sample
standard deviation `RSA_P2T_Variability` are computed over only the
defined per-cycle RSA values (every missing entry excluded), and
`RSA_P2T_NoRSA` equals the number of breath cycles containing fewer than
3 R-peaks (equivalently, fewer than 2 inter-beat intervals) — not fewer
than 2 R-peaks as originally claimed. -/
theorem C3_aggregates_amended (rpeaks onsets : List ℚ) (sr : ℚ) :
    NK.pdMean (NK.p2tValues rpeaks onsets sr) =
      NK.meanQ (NK.definedValues (NK.p2tValues rpeaks onsets sr))
    ∧ (NK.pdMean (NK.p2tValues rpeaks onsets sr)).map (fun q => Real.log q) =
      (NK.meanQ (NK.definedValues (NK.p2tValues rpeaks onsets sr))).map (fun q => Real.log q)
    ∧ NK.pdVar (NK.p2tValues rpeaks onsets sr) =
      NK.sampleVarQ (NK.definedValues (NK.p2tValues rpeaks onsets sr))
    ∧ NK.noRSA (NK.p2tValues rpeaks onsets sr) =
      NK.cyclesWithFewerRpeaksThan rpeaks onsets 3 :=
  ⟨NK.pdMean_eq _, by rw [NK.pdMean_eq], NK.pdVar_eq _,
    NK.noRSA_eq_fewer_than_three rpeaks onsets sr⟩

/-- C1: for every R-peak list, onset list and sampling rate, the RSA_P2T
value of cycle `idx` is obtained by selecting exactly the R-peaks in the
half-open window `[onsets[idx], onsets[idx+1])`, differencing consecutive
selected indices and dividing by the sampling rate, and taking
`max - min` of the resulting intervals when there are at least 2 of
them, and a missing value (`none`, modelling NaN) when there are 0 or 1. -/
theorem C1_p2t_cycle_value (rpeaks onsets : List ℚ) (sr : ℚ) (idx : ℕ)
    (h : idx + 1 < onsets.length) :
    (NK.p2tValues rpeaks onsets sr).getD idx none =
      (let cyc := rpeaks.filter (fun p =>
          decide (onsets.getD idx 0 ≤ p ∧ p < onsets.getD (idx + 1) 0))
       let ivs := NK.specIntervals cyc sr
       if 2 ≤ ivs.length then some (NK.npMax ivs - NK.npMin ivs) else none) := by
  have hlen : idx < (NK.p2tValues rpeaks onsets sr).length := by
    rw [NK.length_p2tValues]; omega
  have h1 : idx < (NK.cyclesRRI rpeaks onsets).length := by
    simp only [NK.cyclesRRI, List.length_map, List.length_range]; omega
  rw [List.getD_eq_getElem _ _ hlen]
  have e1 : (NK.p2tValues rpeaks onsets sr)[idx] =
      NK.p2tValue sr ((NK.cyclesRRI rpeaks onsets)[idx]) := by
    simp [NK.p2tValues]
  have e2 : (NK.cyclesRRI rpeaks onsets)[idx] =
      NK.cycleRpeaks rpeaks (onsets.getD idx 0) (onsets.getD (idx + 1) 0) := by
    simp [NK.cyclesRRI]
  rw [e1, e2]
  have e3 : (fun p => decide (onsets.getD idx 0 ≤ p ∧ p < onsets.getD (idx + 1) 0)) =
      (fun p => decide (onsets.getD idx 0 ≤ p) && decide (p < onsets.getD (idx + 1) 0)) :=
    funext (fun p => Bool.decide_and _ _)
  simp only [NK.p2tValue, NK.cycleRpeaks, NK.specIntervals_eq_npdiff, e3]
  exact if_congr Iff.rfl rfl rfl

/-- Witness for C1 at the spec's concrete example: R-peaks at sample
offsets 0, 100, 250 inside the single cycle `[0, 300)` with
sampling rate 1000 give intervals `[1/10, 3/20]` and RSA value
`1/20 = 0.05`. -/
theorem C1_p2t_cycle_value_witness :
    (NK.p2tValues [0, 100, 250] [0, 300] 1000).getD 0 none = some (1/20) := by
  rw [C1_p2t_cycle_value [0, 100, 250] [0, 300] 1000 0 (by norm_num)]
  norm_num [NK.specIntervals, NK.npMax, NK.npMin, List.filter, min_def, max_def]



/-- C5: for nonempty inspiration onsets, the alignment keeps exactly the
expiration onsets strictly greater than the first inspiration onset; if
the kept count equals the inspiration count N it drops exactly the last
kept onset, leaving N−1 (otherwise it keeps the list unchanged); and the
non-fatal warning flag is set precisely when the resulting count is not
exactly one fewer than the inspiration count, a result being returned
either way. -/
theorem C5_cycle_alignment (insp exps : List ℕ) (h : insp ≠ []) :
    ∃ keptPre kept warn,
      keptPre = exps.filter (fun e => decide (insp.headD 0 < e))
      ∧ NK.alignCycles insp exps = some (kept, warn)
      ∧ (∀ e, e ∈ keptPre ↔ (e ∈ exps ∧ insp.headD 0 < e))
      ∧ (keptPre.length = insp.length →
          kept = keptPre.dropLast ∧ kept.length = insp.length - 1)
      ∧ (keptPre.length ≠ insp.length → kept = keptPre)
      ∧ (warn = true ↔ (kept.length : ℤ) - (insp.length : ℤ) ≠ -1) := by
  have hne : insp.isEmpty = false := by
    cases insp with
    | nil => exact absurd rfl h
    | cons a t => rfl
  have hmem : ∀ e, e ∈ exps.filter (fun e => decide (insp.headD 0 < e)) ↔
      (e ∈ exps ∧ insp.headD 0 < e) := by
    intro e; rw [List.mem_filter]; simp
  by_cases hlen : (exps.filter (fun e => decide (insp.headD 0 < e))).length = insp.length
  · refine ⟨exps.filter (fun e => decide (insp.headD 0 < e)),
      (exps.filter (fun e => decide (insp.headD 0 < e))).dropLast,
      decide ((((exps.filter (fun e => decide (insp.headD 0 < e))).dropLast.length : ℤ) -
        (insp.length : ℤ) ≠ -1)),
      rfl, ?_, hmem, fun _ => ⟨rfl, ?_⟩, fun hc => absurd hlen hc, by simp⟩
    · simp only [NK.alignCycles, hne, Bool.false_eq_true, if_false, hlen, if_true]
    · rw [List.length_dropLast, hlen]
  · refine ⟨exps.filter (fun e => decide (insp.headD 0 < e)),
      exps.filter (fun e => decide (insp.headD 0 < e)),
      decide ((((exps.filter (fun e => decide (insp.headD 0 < e))).length : ℤ) -
        (insp.length : ℤ) ≠ -1)),
      rfl, ?_, hmem, fun hc => absurd hc hlen, fun _ => rfl, by simp⟩
    simp only [NK.alignCycles, hne, Bool.false_eq_true, if_false, hlen, if_neg hlen]

/-- Witness for C5: inspiration onsets `[0, 10]` and expiration onsets
`[5, 15]` are aligned without failing. -/
theorem C5_cycle_alignment_witness :
    ∃ r, NK.alignCycles [0, 10] [5, 15] = some r := by
  obtain ⟨_, kept, warn, _, h2, _⟩ := C5_cycle_alignment [0, 10] [5, 15] (by decide)
  exact ⟨(kept, warn), h2⟩

/-- C6 counterexample: a one-sample signal in mid-expiration (phase 0,
completion 1) has zero inspiration onsets, and the cycle-alignment step
of `ecg_rsa` then fails — the code raises `IndexError` at
`rsp_onsets[0]` (modelled by `none`) — rather than producing an
empty/undefined result as claimed. -/
theorem C6_zero_onsets_counterexample :
    NK.inspirationOnsets [0] [1] = [] ∧
    NK.alignCycles (NK.inspirationOnsets [0] [1]) (NK.expirationOnsets [0] [1]) = none := by
  constructor <;> decide

/-- C6 amended: when cycle extraction finds zero inspiration onsets,
`ecg_rsa` does *not* degrade gracefully: the alignment stage fails with
an index error on the empty onset array and no output fields are
produced. -/
theorem C6_zero_onsets_amended (phase completion : List ℚ)
    (h : NK.inspirationOnsets phase completion = []) :
    NK.alignCycles (NK.inspirationOnsets phase completion)
      (NK.expirationOnsets phase completion) = none := by
  rw [h]; rfl

/-- Witness for the amended C6 at the concrete degenerate input. -/
theorem C6_zero_onsets_amended_witness :
    NK.alignCycles (NK.inspirationOnsets [0, 0] [1, 1])
      (NK.expirationOnsets [0, 0] [1, 1]) = none :=
  C6_zero_onsets_amended [0, 0] [1, 1] (by decide)

/-- C7 counterexample: a 61-sample filtered residual (30.5 s at 2 Hz) has
a final partial epoch, index 1, containing exactly one sample; pandas'
ddof-1 per-epoch variance of that epoch is NaN even though the epoch is
nonempty — variance is undefined already at n = 1, not only at the
impossible n = 0. -/
theorem C7_single_sample_epoch_counterexample :
    (NK.epochSamples (List.replicate 61 0) 1).length = 1 ∧
    NK.sampleVarQ (NK.epochSamples (List.replicate 61 0) 1) = none := by
  have he : NK.epochSamples (List.replicate 61 (0:ℚ)) 1 = [0] := by
    simp only [NK.epochSamples, NK.epochIdx_eq]
    decide
  rw [he]
  exact ⟨rfl, rfl⟩

/-- C7 amended: the 30-second epoch partition is as described and every
epoch visited by the loop (index 0 … max epoch index) contains at least
one sample; however the per-epoch variance is the pandas sample variance
with ddof = 1, which is undefined (NaN) exactly when an epoch has fewer
than 2 samples — realised by a single-sample final partial epoch — and
not only at the impossible 0-sample case. -/
theorem C7_epoch_nonempty_amended (sig : List ℚ) (h : sig ≠ []) :
    (∀ i : ℕ, (i : ℤ) ≤ NK.maxEpochIdx sig → NK.epochSamples sig i ≠ [])
    ∧ (∀ i : ℕ, NK.sampleVarQ (NK.epochSamples sig i) = none ↔
        (NK.epochSamples sig i).length < 2) := by
  constructor
  · intro i hi
    have hn : sig.length ≠ 0 := by simpa [List.length_eq_zero] using h
    have hmap : ((List.range sig.length).map NK.epochIdx) ≠ [] := by
      simp only [ne_eq, List.map_eq_nil_iff, List.range_eq_nil]
      omega
    obtain ⟨k, hk, hke⟩ := List.mem_map.mp (NK.npMax_mem _ hmap)
    rw [List.mem_range] at hk
    have hmax : NK.maxEpochIdx sig = ((k / 60 : ℕ) : ℤ) := by
      rw [NK.maxEpochIdx, ← hke, NK.epochIdx_eq]
    rw [hmax] at hi
    have hi' : i ≤ k / 60 := by exact_mod_cast hi
    have hdm : k / 60 * 60 ≤ k := Nat.div_mul_le_self k 60
    have hlt : 60 * i < sig.length := by omega
    intro hcon
    have hmemf : 60 * i ∈ (List.range sig.length).filter
        (fun k => decide (NK.epochIdx k = i)) := by
      rw [List.mem_filter, List.mem_range]
      refine ⟨hlt, ?_⟩
      rw [NK.epochIdx_eq, Nat.mul_div_cancel_left i (by norm_num : (0:ℕ) < 60)]
      simp
    have hfe : (List.range sig.length).filter (fun k => decide (NK.epochIdx k = i)) = [] := by
      have := congrArg List.length hcon
      rw [NK.epochSamples, List.length_map] at this
      exact List.eq_nil_of_length_eq_zero this
    rw [hfe] at hmemf
    exact List.not_mem_nil _ hmemf
  · intro i
    simp only [NK.sampleVarQ]
    split_ifs with hv
    · simpa using hv
    · simpa using hv

/-- Witness for the amended C7 on a one-sample signal: its only epoch is
epoch 0, which is nonempty, and its variance is undefined precisely
because it has fewer than 2 samples. -/
theorem C7_epoch_nonempty_amended_witness :
    NK.epochSamples [1] 0 ≠ [] ∧
    (NK.sampleVarQ (NK.epochSamples [1] 0) = none ↔ (NK.epochSamples [1] 0).length < 2) := by
  have h := C7_epoch_nonempty_amended [1] (by decide)
  exact ⟨h.1 0 (by norm_num [NK.maxEpochIdx, NK.npMax, NK.epochIdx_eq, List.range_succ]), h.2 0⟩

/-- C8 amended: whenever `hdi x ci` returns a pair `(lo, hi)`, there is an
index `j` into the sorted samples with `lo = x_sorted[j]` and
`hi = x_sorted[j + w]` where `w = ⌈ci·N⌉`, the window width
`x_sorted[j+w] − x_sorted[j]` is minimal over all candidate windows, and
`j` is the first index attaining that minimum in left-to-right scan
order; such a closed window covers `w + 1` sorted points, not `⌈ci·N⌉`
as the claim counts them. -/
theorem C8_hdi_window_amended (x : List ℚ) (ci : ℚ) (lo hi : ℚ)
    (h : NK.hdi x ci = Except.ok (lo, hi)) :
    ∃ j : ℕ,
      j + (⌈ci * ((NK.npsort x).length : ℚ)⌉).toNat < (NK.npsort x).length
      ∧ lo = (NK.npsort x).getD j 0
      ∧ hi = (NK.npsort x).getD (j + (⌈ci * ((NK.npsort x).length : ℚ)⌉).toNat) 0
      ∧ (∀ i, i + (⌈ci * ((NK.npsort x).length : ℚ)⌉).toNat < (NK.npsort x).length →
          hi - lo ≤ (NK.npsort x).getD (i + (⌈ci * ((NK.npsort x).length : ℚ)⌉).toNat) 0
            - (NK.npsort x).getD i 0)
      ∧ (∀ i, i < j →
          hi - lo < (NK.npsort x).getD (i + (⌈ci * ((NK.npsort x).length : ℚ)⌉).toNat) 0
            - (NK.npsort x).getD i 0) := by
  simp only [NK.hdi] at h
  split_ifs at h with h1 h2
  rw [Except.ok.injEq, Prod.mk.injEq] at h
  obtain ⟨hlo, hhi⟩ := h
  set xs := NK.npsort x with hxs
  set N := xs.length with hN
  set w := (⌈ci * (N : ℚ)⌉).toNat with hw
  set widths := (List.range (N - w)).map (fun i => xs.getD (i + w) 0 - xs.getD i 0)
    with hwid
  have hwN : w < N := by
    push_neg at h1 h2
    omega
  have hlw : widths.length = N - w := by
    rw [hwid, List.length_map, List.length_range]
  have hwne : widths ≠ [] := by
    intro hc
    rw [hc] at hlw
    simp at hlw
    omega
  have hm : NK.npMin widths ∈ widths := NK.npMin_mem widths hwne
  have hj : NK.pyIdx (NK.npMin widths) widths < N - w := by
    rw [← hlw]
    exact NK.pyIdx_lt_length _ widths hm
  have hgd : ∀ i, i < N - w → widths.getD i 0 = xs.getD (i + w) 0 - xs.getD i 0 := by
    intro i hi
    rw [hwid, List.getD_eq_getElem _ _ (by simpa [List.length_map, List.length_range] using hi)]
    rw [List.getElem_map, List.getElem_range]
  have hmemD : ∀ i, i < N - w → widths.getD i 0 ∈ widths := by
    intro i hi
    rw [List.getD_eq_getElem _ _ (by omega)]
    exact List.getElem_mem _
  have hjval : widths.getD (NK.pyIdx (NK.npMin widths) widths) 0 = NK.npMin widths :=
    NK.getD_pyIdx _ 0 widths hm
  refine ⟨NK.pyIdx (NK.npMin widths) widths, by omega, hlo.symm, hhi.symm, ?_, ?_⟩
  · intro i hi
    have hi' : i < N - w := by omega
    rw [← hlo, ← hhi, ← hgd _ hj, ← hgd _ hi', hjval]
    exact NK.npMin_le widths _ (hmemD i hi')
  · intro i hij
    have hi' : i < N - w := by omega
    have hne : widths.getD i 0 ≠ NK.npMin widths :=
      NK.getD_ne_of_lt_pyIdx _ 0 widths i hij
    have hle : NK.npMin widths ≤ widths.getD i 0 := NK.npMin_le widths _ (hmemD i hi')
    rw [← hlo, ← hhi, ← hgd _ hj, ← hgd _ hi', hjval]
    exact lt_of_le_of_ne hle (Ne.symm hne)

/-- Witness for the amended C8 on the spec's 6-point example with ci = 1/2
(window size w = 3): `hdi` returns (1, 10), the first minimal window in
scan order, and the window-description of the amended claim holds at it. -/
theorem C8_hdi_window_amended_witness :
    NK.hdi [1, 2, 3, 10, 11, 12] (1/2) = Except.ok (1, 10) ∧
    ∃ j : ℕ, j + (⌈(1/2 : ℚ) * ((NK.npsort [1, 2, 3, 10, 11, 12]).length : ℚ)⌉).toNat <
      (NK.npsort [1, 2, 3, 10, 11, 12]).length ∧
      (1 : ℚ) = (NK.npsort [1, 2, 3, 10, 11, 12]).getD j 0 := by
  have hok : NK.hdi [1, 2, 3, 10, 11, 12] (1/2) = Except.ok (1, 10) := by
    norm_num [NK.hdi, NK.npsort, NK.insertSorted, NK.npMin, NK.pyIdx, List.range_succ]
    simp only [show Int.toNat 3 = 3 from rfl]
    norm_num [min_def]
  obtain ⟨j, h1, h2, _⟩ := C8_hdi_window_amended _ _ _ _ hok
  exact ⟨hok, j, h1, h2⟩

/-- C8 counterexample: for x = [0, 1, 2, 3] and ci = 1/2, the window size
is ⌈ci·N⌉ = 2 and `hdi` returns (0, 2); the closed window [0, 2] covers
3 of the sorted points — `⌈ci·N⌉ + 1`, not `⌈ci·N⌉` as the claim counts
them. -/
theorem C8_hdi_counterexample :
    NK.hdi [0, 1, 2, 3] (1/2) = Except.ok (0, 2) ∧
    ⌈(1/2 : ℚ) * ((([0, 1, 2, 3] : List ℚ)).length : ℚ)⌉ = 2 ∧
    NK.pointsCovered (NK.npsort [0, 1, 2, 3]) 0 2 = 3 := by
  refine ⟨?_, by norm_num, ?_⟩
  · norm_num [NK.hdi, NK.npsort, NK.insertSorted, NK.npMin, NK.pyIdx, List.range_succ]
    simp only [show Int.toNat 2 = 2 from rfl]
    norm_num [min_def]
  · norm_num [NK.pointsCovered, NK.npsort, NK.insertSorted, List.countP, List.countP.go]

/-- C10 amended: `hdi` returns an interval exactly when
2 ≤ ⌈ci·N⌉ ≤ N − 1; it raises the explicit ValueError whenever
⌈ci·N⌉ < 2; and whenever ⌈ci·N⌉ ≥ N *and* ⌈ci·N⌉ ≥ 2 it fails with the
uncaught error from taking the minimum of the empty candidate-window
list. (When ⌈ci·N⌉ < 2 and ⌈ci·N⌉ ≥ N hold together — possible only for
N ≤ 1 — the ValueError check fires first, contrary to the original
claim's second clause.) -/
theorem C10_hdi_failure_amended (x : List ℚ) (ci : ℚ) :
    (⌈ci * (x.length : ℚ)⌉ < 2 → NK.hdi x ci = Except.error NK.HdiErr.ciSmall)
    ∧ (2 ≤ ⌈ci * (x.length : ℚ)⌉ → (x.length : ℤ) ≤ ⌈ci * (x.length : ℚ)⌉ →
        NK.hdi x ci = Except.error NK.HdiErr.emptyMin)
    ∧ (2 ≤ ⌈ci * (x.length : ℚ)⌉ → ⌈ci * (x.length : ℚ)⌉ ≤ (x.length : ℤ) - 1 →
        ∃ p, NK.hdi x ci = Except.ok p) := by
  have hL : (NK.npsort x).length = x.length := NK.length_npsort x
  refine ⟨fun h1 => ?_, fun h1 h2 => ?_, fun h1 h2 => ?_⟩
  · simp only [NK.hdi, hL]
    rw [if_pos h1]
  · simp only [NK.hdi, hL]
    rw [if_neg (by omega), if_pos h2]
  · simp only [NK.hdi, hL]
    rw [if_neg (by omega), if_neg (by omega)]
    exact ⟨_, rfl⟩

/-- Witness for the amended C10: on the 6-point example with ci = 1/2 the
window size 3 lies within [2, N − 1] and `hdi` returns a pair. -/
theorem C10_hdi_failure_amended_witness :
    ∃ p, NK.hdi [1, 2, 3, 10, 11, 12] (1/2) = Except.ok p := by
  refine (C10_hdi_failure_amended [1, 2, 3, 10, 11, 12] (1/2)).2.2 ?_ ?_ <;> norm_num

/-- C10 counterexample: for x = [5] and ci = 1 the window size
⌈ci·N⌉ = 1 satisfies ⌈ci·N⌉ ≥ N, so the original claim's second clause
predicts the uncaught min-of-empty failure there, but the code's
`window_size < 2` check fires first and raises the explicit ValueError
instead. -/
theorem C10_hdi_counterexample :
    (([5] : List ℚ).length : ℤ) ≤ ⌈(1 : ℚ) * ((([5] : List ℚ).length : ℚ))⌉ ∧
    NK.hdi [5] 1 = Except.error NK.HdiErr.ciSmall ∧
    NK.HdiErr.ciSmall ≠ NK.HdiErr.emptyMin := by
  refine ⟨by norm_num, ?_, by decide⟩
  simp only [NK.hdi]
  rw [if_pos (by norm_num [NK.length_npsort])]

/-- C9: applying `rescale` to [0, 1] and then rescaling the result back to
the original range [min d, max d] reproduces the original values exactly
(over exact rationals), for every nonempty sequence with max > min. -/
theorem C9_rescale_round_trip (d : List ℚ) (h : d ≠ [])
    (hmm : NK.npMin d < NK.npMax d) :
    NK.rescaleList (NK.rescaleList d 0 1) (NK.npMin d) (NK.npMax d) = d := by
  have hc : NK.npMax d - NK.npMin d ≠ 0 := sub_ne_zero.mpr (ne_of_gt hmm)
  set f : ℚ → ℚ := fun x => (1 - 0) / (NK.npMax d - NK.npMin d) * (x - NK.npMin d) + 0
    with hf
  have hmono : Monotone f := by
    intro a b hab
    have hcle : 0 ≤ (1 - 0) / (NK.npMax d - NK.npMin d) := by
      have := sub_pos.mpr hmm
      positivity
    simp only [hf, add_zero]
    exact mul_le_mul_of_nonneg_left (sub_le_sub_right hab _) hcle
  have hin : NK.rescaleList d 0 1 = d.map f := rfl
  have hmin2 : NK.npMin (d.map f) = f (NK.npMin d) := NK.npMin_map_mono f hmono d h
  have hmax2 : NK.npMax (d.map f) = f (NK.npMax d) := NK.npMax_map_mono f hmono d h
  have hfmn : f (NK.npMin d) = 0 := by simp [hf]
  have hfmx : f (NK.npMax d) = 1 := by
    simp only [hf, add_zero]
    field_simp
  rw [show NK.rescaleList (NK.rescaleList d 0 1) (NK.npMin d) (NK.npMax d) =
      (NK.rescaleList d 0 1).map
        (fun y => (NK.npMax d - NK.npMin d) /
          (NK.npMax (NK.rescaleList d 0 1) - NK.npMin (NK.rescaleList d 0 1)) *
          (y - NK.npMin (NK.rescaleList d 0 1)) + NK.npMin d) from rfl]
  rw [hin, hmin2, hmax2, hfmn, hfmx, List.map_map]
  have hpt : ∀ x ∈ d,
      ((fun y => (NK.npMax d - NK.npMin d) / (1 - 0) * (y - 0) + NK.npMin d) ∘ f) x = x := by
    intro x _
    simp only [Function.comp, hf, add_zero, sub_zero]
    field_simp
  rw [List.map_congr_left hpt]
  simp

/-- Witness for C9 at the docstring example `[3, 1, 2, 4, 6]`: the
round trip through [0, 1] reproduces the data exactly. -/
theorem C9_rescale_round_trip_witness :
    ([3, 1, 2, 4, 6] : List ℚ) ≠ [] ∧
    NK.npMin ([3, 1, 2, 4, 6] : List ℚ) < NK.npMax ([3, 1, 2, 4, 6] : List ℚ) ∧
    NK.rescaleList (NK.rescaleList [3, 1, 2, 4, 6] 0 1)
      (NK.npMin [3, 1, 2, 4, 6]) (NK.npMax [3, 1, 2, 4, 6]) = [3, 1, 2, 4, 6] := by
  have h1 : ([3, 1, 2, 4, 6] : List ℚ) ≠ [] := by simp
  have h2 : NK.npMin ([3, 1, 2, 4, 6] : List ℚ) < NK.npMax ([3, 1, 2, 4, 6] : List ℚ) := by
    norm_num [NK.npMin, NK.npMax, min_def, max_def]
  exact ⟨h1, h2, C9_rescale_round_trip _ h1 h2⟩
